import Mathlib

/-!
Verification of the DriveIQ backend services against their specification.

The development shallow-embeds the relevant pure fragments of
`backend/app/services/enhanced_search.py`,
`backend/app/services/document_ingestion.py`,
`backend/app/services/embeddings.py` and `backend/app/core/redis_client.py`.

Conventions of the embedding:
* Python strings are `List Char`; Python's `str.lower`, `str.strip`,
  `str.split`, substring tests and the regular expressions used by the code
  are implemented character by character below.  The texts in the claims are
  ASCII apart from the arrow and ellipsis characters, so `Char.toLower`
  (ASCII case folding) and ASCII digit / word-character classes coincide with
  Python's behaviour on every input considered.
* Python floats are modelled by exact rational arithmetic (`ℚ`).  The scores
  combined by the code stay far from the decision thresholds relative to the
  rounding error of IEEE doubles (a disagreement with `ratio > 0.03` would
  need word counts around 10^15), so the exact model agrees with the float
  code on all inputs the claims quantify over.
* Database retrieval, the Qdrant client, the sentence-transformers model and
  the Redis backend are external effects; the embedding takes the values they
  deliver (candidate rows, vectors, cache replies) as explicit parameters.
-/

namespace DriveIQ

/-! ### Python string primitives -/

/-- Whitespace as recognised by Python's `str.split` / `str.strip` and by the
regular-expression class `\s`: ASCII whitespace together with the Unicode
space characters. -/
def pyIsSpace (c : Char) : Bool :=
  c = ' ' || c = '\t' || c = '\n' || c = '\r' ||
  c = Char.ofNat 11 || c = Char.ofNat 12 ||
  (0x1C ≤ c.toNat && c.toNat ≤ 0x1F) ||
  c = Char.ofNat 0x85 || c = Char.ofNat 0xA0 || c = Char.ofNat 0x1680 ||
  (0x2000 ≤ c.toNat && c.toNat ≤ 0x200A) ||
  c = Char.ofNat 0x2028 || c = Char.ofNat 0x2029 ||
  c = Char.ofNat 0x202F || c = Char.ofNat 0x205F || c = Char.ofNat 0x3000

/-- Digits as matched by `\d` (the texts considered contain only ASCII
decimal digits). -/
def pyIsDigit (c : Char) : Bool := c.isDigit

/-- Word characters as matched by `\w` (ASCII letters, digits and the
underscore; the classified queries contain only these). -/
def pyIsWordChar (c : Char) : Bool := c.isAlphanum || c = '_'

/-- Python `str.lower` (ASCII case folding; the letters occurring in the
inputs considered are ASCII). -/
def pyLower (l : List Char) : List Char := l.map Char.toLower

/-- Python `str.lstrip()`. -/
def stripLeft (l : List Char) : List Char := l.dropWhile pyIsSpace

/-- Python `str.strip()`: drop leading whitespace, then trailing whitespace. -/
def pyStrip (l : List Char) : List Char :=
  ((stripLeft l).reverse.dropWhile pyIsSpace).reverse

/-- Maximal runs of characters satisfying `keep`; the accumulator holds the
current run reversed.  With `keep = not ∘ pyIsSpace` this is Python's
`str.split()`, with `keep = pyIsWordChar` it is `re.findall(r'\b\w+\b', ·)`. -/
def tokensAux (keep : Char → Bool) : List Char → List Char → List (List Char)
  | [], acc => if acc.isEmpty then [] else [acc.reverse]
  | c :: rest, acc =>
    if keep c then tokensAux keep rest (c :: acc)
    else if acc.isEmpty then tokensAux keep rest acc
    else acc.reverse :: tokensAux keep rest []

/-- Python `str.split()` (split on whitespace runs, dropping empty parts). -/
def pySplit (l : List Char) : List (List Char) :=
  tokensAux (fun c => !pyIsSpace c) l []

/-- The token list `re.findall(r'\b\w+\b', s)`: maximal runs of word
characters. -/
def pyWords (l : List Char) : List (List Char) := tokensAux pyIsWordChar l []

/-- Python's substring test `needle in hay`. -/
def containsSub (hay needle : List Char) : Bool :=
  needle.isPrefixOf hay ||
    match hay with
    | [] => false
    | _ :: t => containsSub t needle

/-! ### The TOC / index page classifier
(`enhanced_search.is_toc_or_index_page`) -/

/-- One match of `P\.\s*\d+` starting exactly at the head of the list:
`P`, `.`, any whitespace, then at least one digit (greedily).  Returns the
remainder after the match. -/
def matchPRef : List Char → Option (List Char)
  | 'P' :: '.' :: rest =>
    let r := rest.dropWhile pyIsSpace
    let ds := r.takeWhile pyIsDigit
    if ds.isEmpty then none else some (r.dropWhile pyIsDigit)
  | _ => none

/-- One match of `(?:→\s*)?P\.\s*\d+` starting at the head: an optional
arrow-and-whitespace prelude before the `P` reference.  (If the arrow is not
followed by a `P` reference the whole attempt fails: the alternative without
the group would have to start with `P`, but the first character is `→`.) -/
def matchPRefAt (l : List Char) : Option (List Char) :=
  match l with
  | [] => none
  | c :: rest =>
    if c = '→' then matchPRef (rest.dropWhile pyIsSpace) else matchPRef l

/-- Scanning for `len(re.findall(...))`: try a match at the current position;
on success continue after the consumed text, on failure advance one
character — exactly `re.findall`'s non-overlapping scan.  Every step consumes
at least one character, so fuel equal to the length of the text suffices. -/
def countPRefsAux : Nat → List Char → Nat
  | 0, _ => 0
  | _ + 1, [] => 0
  | fuel + 1, c :: rest =>
    match matchPRefAt (c :: rest) with
    | some r => 1 + countPRefsAux fuel r
    | none => countPRefsAux fuel rest

/-- The count `len(re.findall(r'(?:→\s*)?P\.\s*\d+', content))`. -/
def countPRefs (l : List Char) : Nat := countPRefsAux l.length l

/-- One match of `\.{3,}\s*\d+` starting at the head: at least three dots
(greedily), any whitespace, then at least one digit. -/
def matchDotRefAt (l : List Char) : Option (List Char) :=
  let dots := l.takeWhile (fun c => c = '.')
  if 3 ≤ dots.length then
    let r := (l.dropWhile (fun c => c = '.')).dropWhile pyIsSpace
    let ds := r.takeWhile pyIsDigit
    if ds.isEmpty then none else some (r.dropWhile pyIsDigit)
  else none

/-- Scanner for the dot-leader pattern, same regime as `countPRefsAux`. -/
def countDotRefsAux : Nat → List Char → Nat
  | 0, _ => 0
  | _ + 1, [] => 0
  | fuel + 1, c :: rest =>
    match matchDotRefAt (c :: rest) with
    | some r => 1 + countDotRefsAux fuel r
    | none => countDotRefsAux fuel rest

/-- The count `len(re.findall(r'\.{3,}\s*\d+', content))`. -/
def countDotRefs (l : List Char) : Nat := countDotRefsAux l.length l

/-- The total page-reference count computed by `is_toc_or_index_page`. -/
def pageRefCount (content : List Char) : Nat :=
  countPRefs content + countDotRefs content

/-- The explicit TOC/index markers, in the order the code lists them. -/
def TOC_MARKERS : List String :=
  ["pictorial index", "table of contents", "alphabetical index"]

/-- The ratio test `page_refs / word_count > 0.03` of the code, on exact
rationals.  Python compares IEEE doubles; the exact comparison agrees for all
achievable counts (a disagreement would need word counts around 10^15). -/
def ratioExceeds (refs wc : Nat) : Prop :=
  (3 : ℚ) / 100 < (refs : ℚ) / (wc : ℚ)

instance (refs wc : Nat) : Decidable (ratioExceeds refs wc) :=
  decidable_of_iff (0 < wc ∧ 3 * wc < 100 * refs) (by
    unfold ratioExceeds
    constructor
    · rintro ⟨hwc, h⟩
      have hwc' : (0 : ℚ) < (wc : ℚ) := by exact_mod_cast hwc
      rw [div_lt_div_iff₀ (by norm_num) hwc']
      calc (3 : ℚ) * wc < 100 * refs := by exact_mod_cast h
        _ = refs * 100 := by ring
    · intro h
      have hwc : 0 < wc := by
        by_contra hw
        have : wc = 0 := by omega
        rw [this] at h
        norm_num at h
      have hwc' : (0 : ℚ) < (wc : ℚ) := by exact_mod_cast hwc
      refine ⟨hwc, ?_⟩
      rw [div_lt_div_iff₀ (by norm_num) hwc'] at h
      have h' : (3 : ℚ) * wc < 100 * refs := by
        calc (3 : ℚ) * wc < refs * 100 := h
          _ = 100 * refs := by ring
      exact_mod_cast h')

/-- The function `enhanced_search.is_toc_or_index_page`: the page-reference-ratio test
(guarded by a positive word count) first, then the explicit markers. -/
def is_toc_or_index_page (content : List Char) : Bool :=
  let page_refs := pageRefCount content
  let word_count := (pySplit content).length
  if 0 < word_count ∧ 4 ≤ page_refs ∧ ratioExceeds page_refs word_count then
    true
  else if TOC_MARKERS.any (fun m => containsSub (pyLower content) m.toList) then
    true
  else false

/-- The classifier as the specification words it: an explicit marker occurs in
the lowercased content, or there are at least four page-number references and
their ratio to the word count exceeds 0.03.  (With `ℚ`'s convention
`x / 0 = 0` the ratio clause is false on whitespace-only content, matching
the code's `word_count > 0` guard.) -/
def spec_is_toc_page (content : List Char) : Prop :=
  (∃ m ∈ TOC_MARKERS, containsSub (pyLower content) m.toList = true) ∨
    (4 ≤ pageRefCount content ∧
      (3 : ℚ) / 100 <
        (pageRefCount content : ℚ) / (((pySplit content).length : Nat) : ℚ))

/-- A synthetic page of 20 words with 6 occurrences of the U+2026 pattern
"…… 42", exactly as the specification's test sentence writes it. -/
def tocEllipsisPage : String :=
  "…… 42 …… 42 …… 42 …… 42 …… 42 …… 42 alpha beta gamma delta epsilon zeta eta theta"

/-- The same page with ASCII dot leaders, which the code's pattern
`\.{3,}\s*\d+` does match. -/
def tocDotLeaderPage : String :=
  "...... 42 ...... 42 ...... 42 ...... 42 ...... 42 ...... 42 alpha beta gamma delta epsilon zeta eta theta"

/-- A prose page with no page-number references and no markers. -/
def prosePage : String :=
  "The quick brown fox jumps over the lazy dog repeatedly today"

/-! ### Keyword scoring (`enhanced_search.calculate_keyword_score`) -/

/-- The stop-word set of `calculate_keyword_score`, in source order. -/
def STOP_WORDS : List String :=
  ["the", "a", "an", "is", "are", "was", "were", "be", "been",
   "being", "have", "has", "had", "do", "does", "did", "will",
   "would", "could", "should", "may", "might", "must", "can",
   "to", "of", "in", "for", "on", "with", "at", "by", "from",
   "it", "this", "that", "these", "those", "i", "you", "he",
   "she", "we", "they", "my", "your", "his", "her", "our", "their"]

/-- The set `set(re.findall(r'\b\w+\b', s.lower())) - stop_words`.  A Python
set of words is modelled by a duplicate-free list: `dedup` realises the set
construction and the filter realises the set difference, and cardinalities
and membership agree with the set semantics. -/
def nonStopWords (s : List Char) : List (List Char) :=
  ((pyWords (pyLower s)).dedup).filter
    (fun w => !(STOP_WORDS.map String.toList).contains w)

/-- The function `enhanced_search.calculate_keyword_score`: `|query ∩ content| / |query|`
over the stop-word-free word sets, and `0` for an empty query set. -/
def calculate_keyword_score (query content : List Char) : ℚ :=
  let query_words := nonStopWords query
  let content_words := nonStopWords content
  if query_words.isEmpty then 0
  else
    ((query_words.filter (fun w => content_words.contains w)).length : ℚ) /
      (query_words.length : ℚ)

/-! ### Hybrid search (`enhanced_search.hybrid_search`)

The pgvector rows and the Qdrant hits are the values delivered by the two
backends; `none` for the Qdrant argument models `USE_QDRANT` being off or the
Qdrant call raising (both paths leave `scored_results` untouched). -/

/-- One row fetched from pgvector, with its cosine-derived semantic score. -/
structure PgRow where
  content : List Char
  document_name : List Char
  page_number : Int
  chapter : Option (List Char)
  sect : Option (List Char)
  topics : Option (List String)
  semantic_score : ℚ
deriving DecidableEq

/-- One Qdrant hit: a score and a payload whose fields may be absent
(`payload.get` supplies the defaults).  The field `sect` renders the source's
`section`, which is a reserved word in Lean. -/
structure QdrantHit where
  score : ℚ
  content : Option (List Char)
  document_name : Option (List Char)
  page_number : Option Int
  chapter : Option (List Char)
  sect : Option (List Char)
  topics : Option (List String)
deriving DecidableEq

/-- The `SearchResult` dataclass. -/
structure SearchResult where
  content : List Char
  document_name : List Char
  page_number : Int
  chapter : Option (List Char)
  sect : Option (List Char)
  topics : List String
  semantic_score : ℚ
  keyword_score : ℚ
  combined_score : ℚ
deriving DecidableEq

/-- Scoring of one pgvector row: skip TOC/index pages, combine
`semantic * 0.7 + keyword * 0.3`, keep the row iff the combined score reaches
`min_score`.  (`r.topics if r.topics else []` sends both `None` and the empty
list to `[]`, which is `Option.getD` composed with the identity on `[]`.) -/
def scorePgRow (query : List Char) (min_score : ℚ) (r : PgRow) :
    Option SearchResult :=
  if is_toc_or_index_page r.content then none
  else
    let semantic := r.semantic_score
    let keyword := calculate_keyword_score query r.content
    let combined := semantic * 0.7 + keyword * 0.3
    if min_score ≤ combined then
      some { content := r.content, document_name := r.document_name,
             page_number := r.page_number, chapter := r.chapter,
             sect := r.sect, topics := r.topics.getD [],
             semantic_score := semantic, keyword_score := keyword,
             combined_score := combined }
    else none

/-- Scoring of one Qdrant hit (defaults from `payload.get`). -/
def scoreQdrantHit (query : List Char) (min_score : ℚ) (h : QdrantHit) :
    Option SearchResult :=
  let content := h.content.getD []
  if is_toc_or_index_page content then none
  else
    let semantic := h.score
    let keyword := calculate_keyword_score query content
    let combined := semantic * 0.7 + keyword * 0.3
    if min_score ≤ combined then
      some { content := content, document_name := h.document_name.getD [],
             page_number := h.page_number.getD 0, chapter := h.chapter,
             sect := h.sect, topics := h.topics.getD [],
             semantic_score := semantic, keyword_score := keyword,
             combined_score := combined }
    else none

/-- The `scored_results` list: pgvector candidates first, then the Qdrant
candidates when Qdrant is enabled and did not raise. -/
def scoredResults (query : List Char) (pg : List PgRow)
    (qd : Option (List QdrantHit)) (min_score : ℚ) : List SearchResult :=
  pg.filterMap (scorePgRow query min_score) ++
    match qd with
    | none => []
    | some hits => hits.filterMap (scoreQdrantHit query min_score)

/-- The deduplication key `(document_name, page_number)`. -/
def pageKey (r : SearchResult) : List Char × Int :=
  (r.document_name, r.page_number)

/-- Python dict assignment `seen[key] = r` on an insertion-ordered
association list: overwrite in place if the key is present, append
otherwise. -/
def setPage : List ((List Char × Int) × SearchResult) → (List Char × Int) →
    SearchResult → List ((List Char × Int) × SearchResult)
  | [], k, r => [(k, r)]
  | kv :: rest, k, r =>
    if kv.1 = k then (k, r) :: rest else kv :: setPage rest k r

/-- Python dict lookup `seen[key]` (first entry with the key). -/
def lookupPage (seen : List ((List Char × Int) × SearchResult))
    (k : List Char × Int) : Option SearchResult :=
  (seen.find? (fun kv => decide (kv.1 = k))).map (·.2)

/-- One iteration of the dedup loop:
`if key not in seen or r.combined_score > seen[key].combined_score`. -/
def dedupStep (seen : List ((List Char × Int) × SearchResult))
    (r : SearchResult) : List ((List Char × Int) × SearchResult) :=
  match lookupPage seen (pageKey r) with
  | none => setPage seen (pageKey r) r
  | some cur =>
    if cur.combined_score < r.combined_score then setPage seen (pageKey r) r
    else seen

/-- The function `enhanced_search.hybrid_search` after the external retrieval: score and
filter both candidate lists, deduplicate by `(document_name, page_number)`
keeping the higher combined score, sort by combined score descending
(Python's stable sort with `reverse=True`), and truncate to `limit`. -/
def hybrid_search (query : List Char) (pg : List PgRow)
    (qd : Option (List QdrantHit)) (limit : Nat) (min_score : ℚ) :
    List SearchResult :=
  let scored := scoredResults query pg qd min_score
  let seen := scored.foldl dedupStep []
  let deduped := seen.map (·.2)
  let sorted :=
    deduped.mergeSort (fun a b => decide (b.combined_score ≤ a.combined_score))
  sorted.take limit

/-- The invariant of the deduplication loop after `processed` results have
been folded into `seen`: keys are pairwise distinct, every entry is keyed by
its own page key and stems from a processed result, every entry dominates the
combined scores of all processed results with its key, and every processed
result has an entry for its key. -/
def DedupInv (processed : List SearchResult)
    (seen : List ((List Char × Int) × SearchResult)) : Prop :=
  List.Pairwise (fun a b => a.1 ≠ b.1) seen ∧
  (∀ kv ∈ seen, kv.1 = pageKey kv.2 ∧ kv.2 ∈ processed) ∧
  (∀ kv ∈ seen, ∀ s ∈ processed, pageKey s = kv.1 →
    s.combined_score ≤ kv.2.combined_score) ∧
  (∀ s ∈ processed, ∃ kv ∈ seen, kv.1 = pageKey s)

/-- The deduplication example: a query of stop words only (keyword score 0). -/
def exQuery : List Char := "the".toList

/-- A pgvector row for page 5 of "manual.pdf" whose combined score is
6/7 · 0.7 = 0.6. -/
def exRow : PgRow :=
  { content := "the".toList, document_name := "manual.pdf".toList,
    page_number := 5, chapter := none, sect := none, topics := none,
    semantic_score := 6 / 7 }

/-- A Qdrant hit for the same page whose combined score is 8/7 · 0.7 = 0.8. -/
def exHit : QdrantHit :=
  { score := 8 / 7, content := some "the".toList,
    document_name := some "manual.pdf".toList, page_number := some 5,
    chapter := none, sect := none, topics := some [] }

/-- The single result the deduplication example must produce: the entry with
the higher combined score 0.8. -/
def exResult : SearchResult :=
  { content := "the".toList, document_name := "manual.pdf".toList,
    page_number := 5, chapter := none, sect := none, topics := [],
    semantic_score := 8 / 7, keyword_score := 0, combined_score := 4 / 5 }

/-- A row with semantic score 0.8 whose content shares exactly half of the
non-stop-word query words of "oil filter" (keyword score 0.5). -/
def exRow2 : PgRow :=
  { content := "oil pump".toList, document_name := "m.pdf".toList,
    page_number := 1, chapter := none, sect := none, topics := none,
    semantic_score := 8 / 10 }

/-- The scored result for `exRow2`: combined score exactly
0.8 · 0.7 + 0.5 · 0.3 = 0.71. -/
def exResult2 : SearchResult :=
  { content := "oil pump".toList, document_name := "m.pdf".toList,
    page_number := 1, chapter := none, sect := none, topics := [],
    semantic_score := 8 / 10, keyword_score := 1 / 2,
    combined_score := 71 / 100 }

/-! ### Query-intent classification
(`enhanced_search.classify_query_intent`) -/

/-- The `QueryIntent` enum. -/
inductive QueryIntent where
  | VEHICLE_TECHNICAL
  | VEHICLE_GENERAL
  | CONVERSATIONAL
  | OFF_TOPIC
deriving DecidableEq

/-- The apostrophe character (written by code point to keep the sources
plain). -/
def apostrophe : Char := Char.ofNat 39

/-- The alternatives of the five anchored `CONVERSATIONAL_PATTERNS`
regexes, flattened in source order.  Each regex is
`^(alt₁|alt₂|…)\b`; since the engine tries every alternative, a match is the
existence of one alternative that is a prefix of the query and is followed by
a word boundary. -/
def CONVERSATIONAL_STARTS : List (List Char) :=
  (["hi", "hello", "hey", "greetings", "good morning", "good afternoon",
    "good evening",
    "thanks", "thank you", "thx", "ty",
    "bye", "goodbye", "see you", "later",
    "how are you"].map String.toList) ++
  [("what".toList ++ [apostrophe] ++ "s up".toList)] ++
  (["sup",
    "who are you", "what are you", "tell me about yourself"].map
    String.toList)

/-- The trailing `\b` after an alternative: every alternative ends in a word
character, so the boundary holds iff the query ends there or continues with a
non-word character. -/
def boundaryAfterOk (alt q : List Char) : Bool :=
  match q.drop alt.length with
  | [] => true
  | c :: _ => !pyIsWordChar c

/-- Match of one anchored alternative at the start of the query. -/
def matchesStartAlt (q alt : List Char) : Bool :=
  alt.isPrefixOf q && boundaryAfterOk alt q

/-- The `any(re.search(p, query_lower) for p in CONVERSATIONAL_PATTERNS)`-shaped
test the code performs pattern by pattern. -/
def matchesConversational (q : List Char) : Bool :=
  CONVERSATIONAL_STARTS.any (matchesStartAlt q)

/-- The `VEHICLE_GENERAL_PATTERNS` regexes are unanchored and contain only
alternation, so they are equivalent to this list of substring tests
(alternatives expanded in source order). -/
def VEHICLE_GENERAL_SUBSTRINGS : List String :=
  ["what color is my", "what colour is my",
   "what year is my",
   "what model is my",
   "what is my vin",
   "tell me about my car", "tell me about my vehicle",
   "tell me about my 4runner", "tell me about my truck"]

/-- Unanchored match of some vehicle-general pattern. -/
def matchesVehicleGeneral (q : List Char) : Bool :=
  VEHICLE_GENERAL_SUBSTRINGS.any (fun p => containsSub q p.toList)

/-- The `VEHICLE_KEYWORDS` list, verbatim in source order. -/
def VEHICLE_KEYWORDS : List String :=
  ["oil", "filter", "change", "service", "maintenance", "schedule",
   "interval",
   "fluid", "replace", "tire", "rotation", "brake", "transmission", "coolant",
   "spark plug", "battery", "wiper", "alignment", "tune-up",
   "spec", "capacity", "towing", "payload", "engine", "horsepower", "torque",
   "mpg", "fuel", "4wd", "awd", "differential", "suspension", "electrical",
   "fuse", "relay", "sensor", "diagnostic", "warning light", "dashboard",
   "airbag", "abs", "traction", "stability", "recall", "emergency",
   "seatbelt",
   "child seat", "hazard",
   "bluetooth", "navigation", "cruise control", "climate", "air conditioning",
   "heater", "radio", "speaker", "camera", "parking", "mirror", "seat",
   "window", "door", "lock", "key", "remote", "start",
   "manual", "owner", "guide", "how to", "how do i", "where is", "what is",
   "reset", "turn on", "turn off", "activate", "deactivate"]

/-- The count `sum(1 for kw in VEHICLE_KEYWORDS if kw in query_lower)`. -/
def keywordMatches (q : List Char) : Nat :=
  VEHICLE_KEYWORDS.countP (fun kw => containsSub q kw.toList)

/-- The `question_starters` prefixes. -/
def QUESTION_STARTERS : List String :=
  ["how", "what", "where", "when", "why", "can i", "should i", "do i"]

/-- The test `any(query_lower.startswith(qs) for qs in question_starters)`. -/
def startsWithQuestionWord (q : List Char) : Bool :=
  QUESTION_STARTERS.any (fun qs => qs.toList.isPrefixOf q)

/-- The function `enhanced_search.classify_query_intent`: conversational patterns, then
vehicle-general patterns, then keyword matches, then question starters, then
the short-query default, then the long-query default. -/
def classify_query_intent (query : List Char) : QueryIntent :=
  let query_lower := pyStrip (pyLower query)
  if matchesConversational query_lower then .CONVERSATIONAL
  else if matchesVehicleGeneral query_lower then .VEHICLE_GENERAL
  else if 1 ≤ keywordMatches query_lower then .VEHICLE_TECHNICAL
  else if startsWithQuestionWord query_lower then .VEHICLE_TECHNICAL
  else if (pySplit query_lower).length ≤ 3 then .CONVERSATIONAL
  else .VEHICLE_TECHNICAL

/-! ### Topic detection (`document_ingestion.detect_topics`) -/

/-- The `TOPIC_KEYWORDS` table, verbatim in source (dict-insertion) order. -/
def TOPIC_KEYWORDS : List (String × List String) :=
  [("maintenance",
    ["oil", "filter", "fluid", "tire", "brake", "coolant", "transmission",
     "maintenance", "service", "interval", "schedule", "inspect", "replace",
     "lubrication", "rotation", "alignment", "battery", "wiper", "belt",
     "differential", "transfer case", "spark plug", "air filter",
     "cabin filter"]),
   ("technical",
    ["engine", "horsepower", "torque", "specification", "capacity",
     "dimension",
     "towing", "payload", "electrical", "fuse", "wiring", "sensor", "ecu",
     "transmission", "drivetrain", "suspension", "steering", "exhaust",
     "compression", "displacement", "rpm", "voltage", "amperage",
     "cylinder"]),
   ("safety",
    ["warning", "danger", "caution", "airbag", "seatbelt", "abs", "traction",
     "stability", "brake", "emergency", "hazard", "recall", "safety",
     "collision", "impact", "restraint", "child seat", "latch", "anchor"]),
   ("operation",
    ["drive", "start", "stop", "park", "shift", "accelerate", "steering",
     "control", "switch", "button", "dial", "display", "meter", "gauge",
     "indicator", "light", "signal", "horn", "mirror", "seat", "window"]),
   ("features",
    ["navigation", "audio", "bluetooth", "climate", "cruise", "4wd", "awd",
     "crawl control", "multi-terrain", "kinetic", "locking", "feature",
     "system", "mode", "setting", "option", "comfort", "convenience"])]

/-- The function `document_ingestion.detect_topics`: a topic is tagged iff at least two of
its keywords occur in the lowercased text; `["general"]` when nothing is
tagged. -/
def detect_topics (text : List Char) : List String :=
  let text_lower := pyLower text
  let detected := TOPIC_KEYWORDS.filterMap
    (fun p =>
      if 2 ≤ p.2.countP (fun kw => containsSub text_lower kw.toList) then
        some p.1
      else none)
  if detected.isEmpty then ["general"] else detected

/-! ### Chunking (`document_ingestion.chunk_text`)

The source takes `chunk_size` and `overlap` as parameters defaulting to 1000
and 200; every claim concerns the defaults, and the embedding instantiates
them (with arbitrary parameters the Python loop need not terminate, e.g. when
`overlap ≥ chunk_size`).  `chunk_size // 2 = 500`. -/

/-- Python `text.rfind(sub, start, stop)`: the largest index `i` with
`start ≤ i`, `i + len(sub) ≤ stop` and `sub` occurring at `i`; `none` when
there is no such index (Python returns `-1`, which the caller's
`> start + 500` test treats exactly like a failed comparison). -/
def pyRfind (t sub : List Char) (start stop : Nat) : Option Nat :=
  ((List.range stop).filter
    (fun i => decide (start ≤ i) && decide (i + sub.length ≤ stop) &&
      sub.isPrefixOf (t.drop i))).getLast?

/-- The sentence-end markers tried in source order. -/
def PUNCT_BREAKS : List (List Char) :=
  [". ", ".\n", "! ", "!\n", "? ", "?\n"].map String.toList

/-- The `for punct in [...]` loop: the first marker found after the midpoint
of the window moves the window end to just past the punctuation mark;
otherwise the window end stays at `stop`. -/
def findBreak (t : List Char) (start stop : Nat) : List (List Char) → Nat
  | [] => stop
  | p :: rest =>
    match pyRfind t p start stop with
    | some i => if start + 500 < i then i + 1 else findBreak t start stop rest
    | none => findBreak t start stop rest

/-- Python slice `t[start:stop]` (indices clamp to the length). -/
def slicePy (t : List Char) (start stop : Nat) : List Char :=
  (t.drop start).take (stop - start)

/-- A break returned by `findBreak` lies past `start + 501`: it is either the
window end itself or one past a punctuation position beyond the midpoint
`start + 500`.  (Needed for termination of the chunking loop.) -/
theorem findBreak_ge (t : List Char) (start stop : Nat)
    (h : start + 502 ≤ stop) :
    ∀ ps, start + 502 ≤ findBreak t start stop ps := by
  intro ps
  induction ps with
  | nil => simp only [findBreak]; omega
  | cons p rest ih =>
    simp only [findBreak]
    cases pyRfind t p start stop with
    | none => exact ih
    | some i =>
      by_cases hc : start + 500 < i
      · simp only [hc, if_true]; omega
      · simp only [hc, if_false]; exact ih

/-- The `while start < len(text)` loop of `chunk_text`.  The next start is
`end - 200`; since the found break is past `start + 500`, every iteration
advances `start` by at least 302, which gives termination. -/
def chunkLoop (t : List Char) (start : Nat) : List (List Char) :=
  if h : start < t.length then
    let stop1 :=
      if start + 1000 < t.length then findBreak t start (start + 1000) PUNCT_BREAKS
      else start + 1000
    let chunk := pyStrip (slicePy t start stop1)
    let rest := chunkLoop t (stop1 - 200)
    if chunk.isEmpty then rest else chunk :: rest
  else []
termination_by t.length - start
decreasing_by
  split
  · have := findBreak_ge t start (start + 1000) (by omega) PUNCT_BREAKS
    omega
  · omega

/-- One unfolding of `chunkLoop` in the running case, with the window end
named. -/
theorem chunkLoop_eq (t : List Char) (start stop1 : Nat)
    (hx : start < t.length)
    (hs : stop1 = if start + 1000 < t.length then
      findBreak t start (start + 1000) PUNCT_BREAKS else start + 1000) :
    chunkLoop t start =
      if (pyStrip (slicePy t start stop1)).isEmpty then chunkLoop t (stop1 - 200)
      else pyStrip (slicePy t start stop1) :: chunkLoop t (stop1 - 200) := by
  subst hs
  rw [chunkLoop.eq_def, dif_pos hx]

/-- The function `document_ingestion.chunk_text` at the default parameters: a text of at
most 1000 characters is returned unchanged as the single chunk, longer texts
go through the overlapping-window loop. -/
def chunk_text (t : List Char) : List (List Char) :=
  if t.length ≤ 1000 then [t] else chunkLoop t 0

/-! ### PDF ingestion (`document_ingestion.process_pdf_document`)

`PdfReader`, the embedding model and `extract_chapter_section` are external
to the claims settled here: the extracted page texts (with `none` for a page
whose `extract_text()` returns nothing), the model and the chapter/section
extractor are parameters of the embedding. -/

/-- One entry of the `chunks_data` list built during ingestion.  The field
`sect` renders the source's `section` key. -/
structure ChunkData where
  document_name : List Char
  document_type : List Char
  chunk_index : Nat
  content : List Char
  page_number : Nat
  embedding : List ℚ
  chapter : Option (List Char)
  sect : Option (List Char)
  topics : List String
  tokens : Nat
deriving DecidableEq

/-- The inner `for chunk_text_content in page_chunks` loop: one `ChunkData`
per chunk, with consecutive chunk indexes starting at `idx`. -/
def buildChunks (dn dt : List Char) (model : List Char → List ℚ)
    (chap sect : Option (List Char)) (pageNum : Nat) :
    List (List Char) → Nat → List ChunkData
  | [], _ => []
  | c :: cs, idx =>
    { document_name := dn, document_type := dt, chunk_index := idx,
      content := c, page_number := pageNum, embedding := model c,
      chapter := chap, sect := sect, topics := detect_topics c,
      tokens := (pySplit c).length } :: buildChunks dn dt model chap sect pageNum cs (idx + 1)

/-- The page loop of `process_pdf_document`: skip a page whose text is absent
or whose stripped text has fewer than 50 characters; otherwise update the
running chapter, chunk the page and emit its chunks with the document-global
chunk index. -/
def processPages (model : List Char → List ℚ)
    (ecs : List Char → Nat → Option (List Char) × Option (List Char))
    (dn dt : List Char) :
    List (Option (List Char)) → Nat → Nat → Option (List Char) →
    List ChunkData
  | [], _, _, _ => []
  | p :: rest, pageNum, chunkIdx, curChap =>
    match p with
    | none => processPages model ecs dn dt rest (pageNum + 1) chunkIdx curChap
    | some text =>
      if (pyStrip text).length < 50 then
        processPages model ecs dn dt rest (pageNum + 1) chunkIdx curChap
      else
        let cs := ecs text pageNum
        let cur := match cs.1 with | some c => some c | none => curChap
        let pcs := chunk_text text
        buildChunks dn dt model cur cs.2 pageNum pcs chunkIdx ++
          processPages model ecs dn dt rest (pageNum + 1)
            (chunkIdx + pcs.length) cur

/-- The function `document_ingestion.process_pdf_document`: pages are enumerated from 1,
the chunk index starts at 0, no chapter is current initially. -/
def process_pdf_document (model : List Char → List ℚ)
    (ecs : List Char → Nat → Option (List Char) × Option (List Char))
    (pages : List (Option (List Char))) (dn dt : List Char) :
    List ChunkData :=
  processPages model ecs dn dt pages 1 0 none

/-- A concrete page list for the non-contiguity example: a 60-character
page, a page below the 50-character threshold, and another 60-character
page. -/
def exPages : List (Option (List Char)) :=
  [some (List.replicate 60 'a'), some "tiny".toList,
   some (List.replicate 60 'c')]

/-- The first chunk produced from `exPages` (used to witness the page
provenance statement). -/
def exChunkA : ChunkData :=
  { document_name := "doc.pdf".toList, document_type := "manual".toList,
    chunk_index := 0, content := List.replicate 60 'a', page_number := 1,
    embedding := [], chapter := none, sect := none, topics := ["general"],
    tokens := 1 }

/-! ### Embedding cache
(`embeddings.generate_embedding`, `redis_client.RedisCache.get`) -/

/-- The possible outcomes of the raw Redis read performed by
`RedisCache.get` for a given key: the key is missing (or holds falsy data),
it holds data that parses to a vector, it holds unreadable data
(`json.loads` raises), or the backend itself raises. -/
inductive RawReply where
  | absent
  | good (v : List ℚ)
  | bad
  | backendError
deriving DecidableEq

/-- The method `RedisCache.get` / `EmbeddingCache.get_embedding`: the whole read is
wrapped in `try/except`, so a missing key, unreadable data and a backend
error all come back as `None`; only a readable entry yields a value. -/
def cacheGet : RawReply → Option (List ℚ)
  | .good v => some v
  | _ => none

/-- The function `embeddings.generate_embedding`: with caching enabled, return the cache
hit if any, otherwise invoke the model.  (The subsequent
`set_embedding` write does not affect the returned value; the
sentence-transformers model is the function parameter `model`.) -/
def generate_embedding (model : List Char → List ℚ)
    (cache : List Char → RawReply) (use_cache : Bool) (text : List Char) :
    List ℚ :=
  if use_cache then
    match cacheGet (cache text) with
    | some v => v
    | none => model text
  else model text

/-! ### Helper lemmas about stripping -/

theorem pyStrip_eq_nil_all_space {s : List Char} (h : pyStrip s = []) :
    ∀ c ∈ s, pyIsSpace c = true := by
  intro c hc
  unfold pyStrip at h
  rw [List.reverse_eq_nil_iff, List.dropWhile_eq_nil_iff] at h
  have hs : ∀ x ∈ stripLeft s, pyIsSpace x = true := by
    intro x hx
    exact h x (List.mem_reverse.mpr hx)
  have hc' : c ∈ s.takeWhile pyIsSpace ++ s.dropWhile pyIsSpace := by
    rw [List.takeWhile_append_dropWhile]
    exact hc
  rcases List.mem_append.mp hc' with h1 | h2
  · exact List.mem_takeWhile_imp h1
  · exact hs c h2

theorem stripLeft_head : ∀ (s : List Char) (a : Char) (t' : List Char),
    stripLeft s = a :: t' → pyIsSpace a = false := by
  intro s
  induction s with
  | nil => intro a t' h; simp [stripLeft] at h
  | cons c cs ih =>
    intro a t' h
    rw [stripLeft, List.dropWhile_cons] at h
    split at h
    · exact ih a t' h
    · injection h with h1 _
      subst h1
      simp_all

theorem pyStrip_isPrefix (s : List Char) : pyStrip s <+: stripLeft s := by
  have h2 : ((stripLeft s).reverse.dropWhile pyIsSpace).reverse <+:
      ((stripLeft s).reverse).reverse :=
    List.reverse_prefix.mpr (List.dropWhile_suffix pyIsSpace)
  simpa [pyStrip] using h2

theorem pyStrip_pyStrip_ne_nil {s : List Char} (h : pyStrip s ≠ []) :
    pyStrip (pyStrip s) ≠ [] := by
  obtain ⟨a, t', hat⟩ : ∃ a t', pyStrip s = a :: t' := by
    cases hps : pyStrip s with
    | nil => exact absurd hps h
    | cons a t' => exact ⟨a, t', rfl⟩
  have hpre := pyStrip_isPrefix s
  rw [hat] at hpre
  obtain ⟨u, hu⟩ := hpre
  have hhead : pyIsSpace a = false :=
    stripLeft_head s a (t' ++ u) (by rw [← hu]; rfl)
  intro hnil
  have := pyStrip_eq_nil_all_space hnil a (by rw [hat]; exact List.mem_cons_self a t')
  rw [this] at hhead
  cases hhead

/-! ### C1: the TOC/index classifier -/

/-- C1 (counterexample): the synthetic page made of 20 words and 6
occurrences of the pattern "…… 42", with the U+2026 ellipsis characters the
specification writes, is NOT classified as TOC: the code's pattern
`\.{3,}\s*\d+` matches ASCII full stops only, so the page has zero
page-number references. -/
theorem C1_ellipsis_page_not_toc :
    is_toc_or_index_page tocEllipsisPage.toList = false ∧
    (pySplit tocEllipsisPage.toList).length = 20 ∧
    pageRefCount tocEllipsisPage.toList = 0 := by
  refine ⟨by decide, by decide, by decide⟩

/-- C1 (amended): `is_toc_or_index_page` returns true exactly when an
explicit marker occurs in the lowercased content or there are at least four
page-number references (`P. 123` / `→ P. 123` forms, or ASCII dot-leader
`...... 123` forms) whose ratio to the word count exceeds 0.03; the
synthetic page of 20 words with 6 occurrences of "...... 42" (ASCII dot
leaders) is classified as TOC, and a prose page with no such patterns is
not. -/
theorem C1_toc_classifier :
    (∀ content : List Char,
      is_toc_or_index_page content = true ↔ spec_is_toc_page content) ∧
    is_toc_or_index_page tocDotLeaderPage.toList = true ∧
    is_toc_or_index_page prosePage.toList = false := by
  refine ⟨?_, by decide, by decide⟩
  intro content
  simp only [is_toc_or_index_page, spec_is_toc_page]
  constructor
  · intro h
    split at h
    · next h1 => exact Or.inr ⟨h1.2.1, h1.2.2⟩
    · next h1 =>
      split at h
      · next h2 =>
        left
        simpa using List.any_eq_true.mp h2
      · cases h
  · intro h
    rcases h with ⟨m, hm, hmc⟩ | ⟨h4, hq⟩
    · split
      · rfl
      · rw [if_pos]
        exact List.any_eq_true.mpr ⟨m, hm, hmc⟩
    · have hwc : 0 < (pySplit content).length := by
        rcases Nat.eq_zero_or_pos (pySplit content).length with h0 | h0
        · rw [h0] at hq
          norm_num at hq
        · exact h0
      rw [if_pos ⟨hwc, h4, hq⟩]

/-- C1 (witness): the amended equivalence applied to a concrete marker
page. -/
theorem C1_toc_classifier_witness :
    is_toc_or_index_page (String.toList "table of contents") = true :=
  (C1_toc_classifier.1 (String.toList "table of contents")).mpr
    (Or.inl ⟨"table of contents", by decide, by decide⟩)

/-! ### C4: short texts are returned as a single (untrimmed) chunk -/

/-- C4 (counterexample): for the input " a " (length 3 ≤ 1000) the single
returned chunk is the input itself, which is not whitespace-trimmed. -/
theorem C4_chunk_not_trimmed :
    chunk_text " a ".toList = [" a ".toList] ∧
    pyStrip " a ".toList ≠ " a ".toList := by
  refine ⟨by decide, by decide⟩

/-- C4 (amended): for every text of length at most the chunk size (1000),
`chunk_text` returns exactly one chunk, and that chunk is the input itself
(not trimmed). -/
theorem C4_short_single_chunk :
    ∀ t : List Char, t.length ≤ 1000 → chunk_text t = [t] := by
  intro t h
  unfold chunk_text
  rw [if_pos h]

/-- C4 (witness): the amended statement applied at a concrete short text. -/
theorem C4_short_single_chunk_witness :
    chunk_text "oil change".toList = ["oil change".toList] :=
  C4_short_single_chunk "oil change".toList (by decide)

/-! ### C9: chunking terminates and produces no blank chunks -/

theorem chunkLoop_chunks_not_blank (t : List Char) :
    ∀ (n start : Nat), t.length - start ≤ n →
      ∀ c ∈ chunkLoop t start, pyStrip c ≠ [] := by
  intro n
  induction n with
  | zero =>
    intro start h c hc
    rw [chunkLoop.eq_def, dif_neg (by omega)] at hc
    cases hc
  | succ n ih =>
    intro start h c hc
    by_cases hx : start < t.length
    · obtain ⟨S, hSdef⟩ : ∃ S, S = if start + 1000 < t.length then
          findBreak t start (start + 1000) PUNCT_BREAKS
        else start + 1000 := ⟨_, rfl⟩
      have hS : start + 502 ≤ S := by
        rw [hSdef]
        split
        · exact findBreak_ge t start (start + 1000) (by omega) PUNCT_BREAKS
        · omega
      rw [chunkLoop_eq t start S hx hSdef] at hc
      have hnext : t.length - (S - 200) ≤ n := by omega
      split at hc
      · exact ih _ hnext c hc
      · next hnonempty =>
        rcases List.mem_cons.mp hc with rfl | hc'
        · exact pyStrip_pyStrip_ne_nil (by simpa [List.isEmpty_iff] using hnonempty)
        · exact ih _ hnext c hc'
    · rw [chunkLoop.eq_def, dif_neg hx] at hc
      cases hc

/-- C9 (counterexample): on the whitespace-only input "   " (length 3, so the
short path applies) the returned chunk is the input itself, which is empty
after trimming. -/
theorem C9_blank_chunk_counterexample :
    "   ".toList ∈ chunk_text "   ".toList ∧ pyStrip "   ".toList = [] := by
  refine ⟨by decide, by decide⟩

/-- C9 (amended): for every input text containing at least one non-whitespace
character, `chunk_text` at the default parameters returns a (finite) list of
chunks none of which is empty after trimming.  Termination of the chunking
loop for the default parameters is established by the well-founded definition
of `chunkLoop` itself. -/
theorem C9_chunks_not_blank :
    ∀ t : List Char, (∃ ch ∈ t, pyIsSpace ch = false) →
      ∀ c ∈ chunk_text t, pyStrip c ≠ [] := by
  intro t ht c hc
  unfold chunk_text at hc
  split at hc
  · rw [List.mem_singleton] at hc
    subst hc
    intro hnil
    obtain ⟨ch, hch, hsp⟩ := ht
    have := pyStrip_eq_nil_all_space hnil ch hch
    rw [this] at hsp
    cases hsp
  · exact chunkLoop_chunks_not_blank t t.length 0 (by omega) c hc

/-- C9 (witness): the amended statement applied at a concrete text. -/
theorem C9_chunks_not_blank_witness :
    pyStrip "oil change".toList ≠ [] :=
  C9_chunks_not_blank "oil change".toList (by decide) "oil change".toList
    (by decide)

/-! ### C5: intent classification literals and evaluation order -/

/-- C5: the four literal classifications of the specification, and the
ordering property: any query whose lowercased, stripped form matches a
conversational greeting pattern is classified conversational, before the
keyword and question-word fallbacks are consulted. -/
theorem C5_classify_literals_and_order :
    classify_query_intent "hello there".toList = .CONVERSATIONAL ∧
    classify_query_intent "what color is my car".toList = .VEHICLE_GENERAL ∧
    classify_query_intent "how often should I change the oil".toList =
      .VEHICLE_TECHNICAL ∧
    classify_query_intent "ok thanks bye".toList = .CONVERSATIONAL ∧
    (∀ q : List Char, matchesConversational (pyStrip (pyLower q)) = true →
      classify_query_intent q = .CONVERSATIONAL) := by
  refine ⟨by decide, by decide, by decide, by decide, ?_⟩
  intro q h
  simp [classify_query_intent, h]

/-- C5 (witness): a greeting containing the vehicle keywords "oil" and
"change" is still classified conversational. -/
theorem C5_classify_witness :
    classify_query_intent "hello oil change".toList = .CONVERSATIONAL :=
  C5_classify_literals_and_order.2.2.2.2 "hello oil change".toList (by decide)

/-! ### C8: the off-topic intent is never produced -/

/-- C8: for every query, `classify_query_intent` returns one of
conversational, vehicle-general and vehicle-technical; the off-topic intent
is never produced. -/
theorem C8_never_off_topic :
    ∀ q : List Char,
      classify_query_intent q = .CONVERSATIONAL ∨
      classify_query_intent q = .VEHICLE_GENERAL ∨
      classify_query_intent q = .VEHICLE_TECHNICAL := by
  intro q
  simp only [classify_query_intent]
  split
  · exact Or.inl rfl
  · split
    · exact Or.inr (Or.inl rfl)
    · split
      · exact Or.inr (Or.inr rfl)
      · split
        · exact Or.inr (Or.inr rfl)
        · split
          · exact Or.inl rfl
          · exact Or.inr (Or.inr rfl)

/-! ### C6: topic detection -/

/-- C6: the detected topic list is never empty; a topic is assigned exactly
when its keyword set has at least two matches in the lowercased text, with
the single default topic "general" exactly when no set reaches the
threshold; a chunk can carry several topics.  (The function is a pure
function of the text, so identical content always receives the identical
topic list.) -/
theorem C6_detect_topics_invariants :
    (∀ t : List Char, detect_topics t ≠ []) ∧
    (∀ (t : List Char) (topic : String),
      topic ∈ detect_topics t ↔
        ((∃ kws, (topic, kws) ∈ TOPIC_KEYWORDS ∧
            2 ≤ kws.countP (fun kw => containsSub (pyLower t) kw.toList)) ∨
          (topic = "general" ∧ ∀ p ∈ TOPIC_KEYWORDS,
            p.2.countP (fun kw => containsSub (pyLower t) kw.toList) < 2))) ∧
    detect_topics "oil filter engine torque".toList =
      ["maintenance", "technical"] ∧
    detect_topics "hello world".toList = ["general"] := by
  refine ⟨?_, ?_, by decide, by decide⟩
  · intro t
    simp only [detect_topics]
    split
    · simp
    · next hne =>
      simpa [List.isEmpty_iff] using hne
  · intro t topic
    simp only [detect_topics]
    constructor
    · intro hmem
      split at hmem
      · next hemp =>
        rw [List.mem_singleton] at hmem
        subst hmem
        refine Or.inr ⟨rfl, ?_⟩
        intro p hp
        have hnil := List.isEmpty_iff.mp hemp
        have := List.filterMap_eq_nil_iff.mp hnil p hp
        by_cases h2 : 2 ≤ p.2.countP (fun kw => containsSub (pyLower t) kw.toList)
        · rw [if_pos h2] at this
          cases this
        · omega
      · obtain ⟨p, hp, hsome⟩ := List.mem_filterMap.mp hmem
        by_cases h2 : 2 ≤ p.2.countP (fun kw => containsSub (pyLower t) kw.toList)
        · rw [if_pos h2] at hsome
          injection hsome with h'
          subst h'
          exact Or.inl ⟨p.2, by simpa using hp, h2⟩
        · rw [if_neg h2] at hsome
          cases hsome
    · intro hspec
      rcases hspec with ⟨kws, hmem, h2⟩ | ⟨rfl, hall⟩
      · have hd : topic ∈ TOPIC_KEYWORDS.filterMap
            (fun p =>
              if 2 ≤ p.2.countP (fun kw => containsSub (pyLower t) kw.toList)
              then some p.1 else none) :=
          List.mem_filterMap.mpr ⟨(topic, kws), hmem, by rw [if_pos h2]⟩
        split
        · next hemp =>
          rw [List.isEmpty_iff.mp hemp] at hd
          cases hd
        · exact hd
      · have hnil : TOPIC_KEYWORDS.filterMap
            (fun p =>
              if 2 ≤ p.2.countP (fun kw => containsSub (pyLower t) kw.toList)
              then some p.1 else none) = [] :=
          List.filterMap_eq_nil_iff.mpr
            (fun p hp => by rw [if_neg (by have := hall p hp; omega)])
        rw [if_pos (by rw [hnil]; rfl)]
        simp

/-- C6 (witness): the threshold characterisation applied to a keyword-free
text, yielding the default topic. -/
theorem C6_detect_topics_witness :
    ("general" : String) ∈ detect_topics "hello world".toList :=
  (C6_detect_topics_invariants.2.1 "hello world".toList "general").mpr
    (Or.inr ⟨rfl, by decide⟩)

/-! ### C7: the embedding cache fails open -/

/-- C7: with caching enabled a cache hit returns the stored vector, and the
returned value does not depend on the model (the model is not consulted); a
backend error and an unreadable entry are treated as a miss — the embedding
is recomputed by the model and returned — and `RedisCache.get` maps every
such failure to `None` instead of propagating it. -/
theorem C7_cache_hit_and_fail_open :
    (∀ (m : List Char → List ℚ) (cache : List Char → RawReply)
        (t : List Char) (v : List ℚ),
      cache t = .good v → generate_embedding m cache true t = v) ∧
    (∀ (m₁ m₂ : List Char → List ℚ) (cache : List Char → RawReply)
        (t : List Char) (v : List ℚ),
      cache t = .good v →
        generate_embedding m₁ cache true t = generate_embedding m₂ cache true t) ∧
    (∀ (m : List Char → List ℚ) (cache : List Char → RawReply) (t : List Char),
      cache t = .backendError → generate_embedding m cache true t = m t) ∧
    (∀ (m : List Char → List ℚ) (cache : List Char → RawReply) (t : List Char),
      cache t = .bad → generate_embedding m cache true t = m t) ∧
    (∀ r : RawReply, r = .backendError ∨ r = .bad → cacheGet r = none) := by
  refine ⟨?_, ?_, ?_, ?_, ?_⟩
  · intro m cache t v h
    simp [generate_embedding, cacheGet, h]
  · intro m₁ m₂ cache t v h
    simp [generate_embedding, cacheGet, h]
  · intro m cache t h
    simp [generate_embedding, cacheGet, h]
  · intro m cache t h
    simp [generate_embedding, cacheGet, h]
  · intro r h
    rcases h with rfl | rfl <;> rfl

/-- C7 (witness): the hit and fail-open statements applied at concrete
caches. -/
theorem C7_cache_witness :
    generate_embedding (fun _ => [1]) (fun _ => .good [2]) true "x".toList = [2] ∧
    generate_embedding (fun _ => [1]) (fun _ => .backendError) true "x".toList = [1] :=
  ⟨C7_cache_hit_and_fail_open.1 (fun _ => [1]) (fun _ => .good [2]) "x".toList [2] rfl,
   C7_cache_hit_and_fail_open.2.2.1 (fun _ => [1]) (fun _ => .backendError) "x".toList rfl⟩

/-! ### C10: page skipping and document-global chunk indexes -/

theorem buildChunks_map_index (dn dt : List Char) (model : List Char → List ℚ)
    (chap sect : Option (List Char)) (pn : Nat) :
    ∀ (cs : List (List Char)) (idx : Nat),
      (buildChunks dn dt model chap sect pn cs idx).map (·.chunk_index) =
        List.range' idx cs.length := by
  intro cs
  induction cs with
  | nil => intro idx; rfl
  | cons c cs ih =>
    intro idx
    simp only [buildChunks, List.map_cons, ih, List.length_cons, List.range']

theorem buildChunks_length (dn dt : List Char) (model : List Char → List ℚ)
    (chap sect : Option (List Char)) (pn : Nat) (cs : List (List Char))
    (idx : Nat) :
    (buildChunks dn dt model chap sect pn cs idx).length = cs.length := by
  simpa using
    congrArg List.length (buildChunks_map_index dn dt model chap sect pn cs idx)

theorem buildChunks_page (dn dt : List Char) (model : List Char → List ℚ)
    (chap sect : Option (List Char)) (pn : Nat) :
    ∀ (cs : List (List Char)) (idx : Nat) (c : ChunkData),
      c ∈ buildChunks dn dt model chap sect pn cs idx →
      c.page_number = pn := by
  intro cs
  induction cs with
  | nil => intro idx c hc; cases hc
  | cons x cs ih =>
    intro idx c hc
    rcases List.mem_cons.mp hc with rfl | hc'
    · rfl
    · exact ih (idx + 1) c hc'

theorem processPages_map_index (model : List Char → List ℚ)
    (ecs : List Char → Nat → Option (List Char) × Option (List Char))
    (dn dt : List Char) :
    ∀ (ps : List (Option (List Char))) (pn ci : Nat)
      (cc : Option (List Char)),
      (processPages model ecs dn dt ps pn ci cc).map (·.chunk_index) =
        List.range' ci (processPages model ecs dn dt ps pn ci cc).length := by
  intro ps
  induction ps with
  | nil => intro pn ci cc; rfl
  | cons p rest ih =>
    intro pn ci cc
    cases p with
    | none => exact ih (pn + 1) ci cc
    | some text =>
      simp only [processPages]
      split
      · exact ih (pn + 1) ci cc
      · rw [List.map_append, buildChunks_map_index, ih, List.length_append,
          buildChunks_length]
        have happ :=
          List.range'_append ci (chunk_text text).length
            (processPages model ecs dn dt rest (pn + 1)
              (ci + (chunk_text text).length)
              (match (ecs text pn).1 with
                | some c => some c
                | none => cc)).length 1
        simp only [one_mul] at happ
        rw [happ, Nat.add_comm]

theorem processPages_member_page (model : List Char → List ℚ)
    (ecs : List Char → Nat → Option (List Char) × Option (List Char))
    (dn dt : List Char) :
    ∀ (ps : List (Option (List Char))) (pn ci : Nat)
      (cc : Option (List Char)) (c : ChunkData),
      c ∈ processPages model ecs dn dt ps pn ci cc →
      pn ≤ c.page_number ∧
        ∃ t, ps[c.page_number - pn]? = some (some t) ∧
          50 ≤ (pyStrip t).length := by
  intro ps
  induction ps with
  | nil => intro pn ci cc c hc; cases hc
  | cons p rest ih =>
    intro pn ci cc c hc
    have shift : ∀ (hc' : c ∈ processPages model ecs dn dt rest (pn + 1) ci cc),
        pn ≤ c.page_number ∧
          ∃ t, (p :: rest)[c.page_number - pn]? = some (some t) ∧
            50 ≤ (pyStrip t).length := by
      intro hc'
      obtain ⟨h1, t, ht, hlen⟩ := ih (pn + 1) ci cc c hc'
      refine ⟨by omega, t, ?_, hlen⟩
      have hidx : c.page_number - pn = (c.page_number - (pn + 1)) + 1 := by
        omega
      rw [hidx]
      simpa using ht
    cases p with
    | none => exact shift hc
    | some text =>
      simp only [processPages] at hc
      split at hc
      · obtain ⟨h1, t, ht, hlen⟩ := ih (pn + 1) ci cc c hc
        refine ⟨by omega, t, ?_, hlen⟩
        have hidx : c.page_number - pn = (c.page_number - (pn + 1)) + 1 := by
          omega
        rw [hidx]
        simpa using ht
      · next hlen50 =>
        rcases List.mem_append.mp hc with hb | hr
        · have hpg : c.page_number = pn :=
            buildChunks_page dn dt model _ _ pn (chunk_text text) ci c hb
          refine ⟨by omega, text, ?_, by omega⟩
          rw [hpg, Nat.sub_self]
          simp
        · obtain ⟨h1, t, ht, hlen⟩ := ih (pn + 1) _ _ c hr
          refine ⟨by omega, t, ?_, hlen⟩
          have hidx : c.page_number - pn = (c.page_number - (pn + 1)) + 1 := by
            omega
          rw [hidx]
          simpa using ht

/-- C10: every stored chunk originates from a kept page — a page whose text
is present and whose stripped length is at least 50 — so skipped pages
contribute no chunks; chunk indexes are document-global and consecutive
(0, 1, 2, …) across pages; and on a concrete three-page document whose
middle page is short, the two chunks carry the non-contiguous page numbers
1 and 3 with consecutive chunk indexes 0 and 1. -/
theorem C10_page_skipping_and_chunk_indexes :
    (∀ (model : List Char → List ℚ)
        (ecs : List Char → Nat → Option (List Char) × Option (List Char))
        (pages : List (Option (List Char))) (dn dt : List Char),
      ∀ c ∈ process_pdf_document model ecs pages dn dt,
        1 ≤ c.page_number ∧
          ∃ t, pages[c.page_number - 1]? = some (some t) ∧
            50 ≤ (pyStrip t).length) ∧
    (∀ (model : List Char → List ℚ)
        (ecs : List Char → Nat → Option (List Char) × Option (List Char))
        (pages : List (Option (List Char))) (dn dt : List Char),
      (process_pdf_document model ecs pages dn dt).map (·.chunk_index) =
        List.range (process_pdf_document model ecs pages dn dt).length) ∧
    (process_pdf_document (fun _ => []) (fun _ _ => (none, none)) exPages
        "doc.pdf".toList "manual".toList).map
      (fun c => (c.chunk_index, c.page_number)) = [(0, 1), (1, 3)] := by
  refine ⟨?_, ?_, by decide⟩
  · intro model ecs pages dn dt c hc
    exact processPages_member_page model ecs dn dt pages 1 0 none c hc
  · intro model ecs pages dn dt
    rw [List.range_eq_range']
    exact processPages_map_index model ecs dn dt pages 1 0 none

/-- C10 (witness): the provenance statement applied to the first concrete
chunk of the example document. -/
theorem C10_page_skipping_witness :
    1 ≤ exChunkA.page_number ∧
      ∃ t, exPages[exChunkA.page_number - 1]? = some (some t) ∧
        50 ≤ (pyStrip t).length :=
  C10_page_skipping_and_chunk_indexes.1 (fun _ => []) (fun _ _ => (none, none))
    exPages "doc.pdf".toList "manual".toList exChunkA (by decide)

/-! ### Deduplication-loop lemmas (C2) -/

theorem mem_setPage_strong :
    ∀ {seen : List ((List Char × Int) × SearchResult)}
      {k : List Char × Int} {r : SearchResult}
      {kv : (List Char × Int) × SearchResult},
      List.Pairwise (fun a b => a.1 ≠ b.1) seen →
      kv ∈ setPage seen k r → (kv ∈ seen ∧ kv.1 ≠ k) ∨ kv = (k, r) := by
  intro seen
  induction seen with
  | nil =>
    intro k r kv _ hm
    right
    simpa [setPage] using hm
  | cons kv₀ rest ih =>
    intro k r kv hpw hm
    obtain ⟨hhead, htail⟩ := List.pairwise_cons.mp hpw
    by_cases h0 : kv₀.1 = k
    · rw [setPage, if_pos h0] at hm
      rcases List.mem_cons.mp hm with rfl | h'
      · exact Or.inr rfl
      · refine Or.inl ⟨List.mem_cons_of_mem _ h', ?_⟩
        intro hk
        exact hhead kv h' (h0.trans hk.symm)
    · rw [setPage, if_neg h0] at hm
      rcases List.mem_cons.mp hm with rfl | h'
      · exact Or.inl ⟨List.mem_cons_self _ _, h0⟩
      · rcases ih htail h' with ⟨hmem, hne⟩ | rfl
        · exact Or.inl ⟨List.mem_cons_of_mem _ hmem, hne⟩
        · exact Or.inr rfl

theorem self_mem_setPage :
    ∀ (seen : List ((List Char × Int) × SearchResult))
      (k : List Char × Int) (r : SearchResult), (k, r) ∈ setPage seen k r := by
  intro seen
  induction seen with
  | nil => intro k r; simp [setPage]
  | cons kv₀ rest ih =>
    intro k r
    by_cases h0 : kv₀.1 = k
    · rw [setPage, if_pos h0]
      exact List.mem_cons_self _ _
    · rw [setPage, if_neg h0]
      exact List.mem_cons_of_mem _ (ih k r)

theorem mem_setPage_of_ne :
    ∀ {seen : List ((List Char × Int) × SearchResult)}
      (k : List Char × Int) (r : SearchResult)
      {kv : (List Char × Int) × SearchResult},
      kv ∈ seen → kv.1 ≠ k → kv ∈ setPage seen k r := by
  intro seen
  induction seen with
  | nil => intro k r kv h _; cases h
  | cons kv₀ rest ih =>
    intro k r kv hmem hne
    by_cases h0 : kv₀.1 = k
    · rw [setPage, if_pos h0]
      rcases List.mem_cons.mp hmem with rfl | h'
      · exact absurd h0 hne
      · exact List.mem_cons_of_mem _ h'
    · rw [setPage, if_neg h0]
      rcases List.mem_cons.mp hmem with rfl | h'
      · exact List.mem_cons_self _ _
      · exact List.mem_cons_of_mem _ (ih k r h' hne)

theorem pairwise_setPage :
    ∀ {seen : List ((List Char × Int) × SearchResult)}
      (k : List Char × Int) (r : SearchResult),
      List.Pairwise (fun a b => a.1 ≠ b.1) seen →
      List.Pairwise (fun a b => a.1 ≠ b.1) (setPage seen k r) := by
  intro seen
  induction seen with
  | nil => intro k r _; simp [setPage]
  | cons kv₀ rest ih =>
    intro k r hpw
    obtain ⟨hhead, htail⟩ := List.pairwise_cons.mp hpw
    by_cases h0 : kv₀.1 = k
    · rw [setPage, if_pos h0]
      refine List.pairwise_cons.mpr ⟨?_, htail⟩
      intro b hb
      exact h0 ▸ hhead b hb
    · rw [setPage, if_neg h0]
      refine List.pairwise_cons.mpr ⟨?_, ih k r htail⟩
      intro b hb
      rcases mem_setPage_strong htail hb with ⟨hb', _⟩ | rfl
      · exact hhead b hb'
      · exact h0

theorem lookupPage_eq_none
    {seen : List ((List Char × Int) × SearchResult)} {k : List Char × Int}
    (h : lookupPage seen k = none) : ∀ kv ∈ seen, kv.1 ≠ k := by
  intro kv hkv
  unfold lookupPage at h
  cases hf : seen.find? (fun kv => decide (kv.1 = k)) with
  | some a => rw [hf] at h; cases h
  | none =>
    have := List.find?_eq_none.mp hf kv hkv
    simpa using this

theorem lookupPage_eq_some
    {seen : List ((List Char × Int) × SearchResult)} {k : List Char × Int}
    {cur : SearchResult} (h : lookupPage seen k = some cur) :
    (k, cur) ∈ seen := by
  unfold lookupPage at h
  cases hf : seen.find? (fun kv => decide (kv.1 = k)) with
  | none => rw [hf] at h; cases h
  | some kv =>
    rw [hf] at h
    injection h with h2
    have hk : kv.1 = k := by simpa using List.find?_some hf
    have hmem := List.mem_of_find?_eq_some hf
    rw [← hk, ← h2]
    simpa using hmem

theorem pairwise_key_unique
    {seen : List ((List Char × Int) × SearchResult)}
    (hpw : List.Pairwise (fun a b => a.1 ≠ b.1) seen)
    {kv₁ kv₂ : (List Char × Int) × SearchResult}
    (h1 : kv₁ ∈ seen) (h2 : kv₂ ∈ seen) (hk : kv₁.1 = kv₂.1) : kv₁ = kv₂ := by
  by_contra hne
  exact (hpw.forall (fun _ _ h => Ne.symm h) h1 h2 hne) hk

theorem dedupInv_step {processed : List SearchResult}
    {seen : List ((List Char × Int) × SearchResult)}
    (h : DedupInv processed seen) (r : SearchResult) :
    DedupInv (processed ++ [r]) (dedupStep seen r) := by
  obtain ⟨hpw, hwf, hmax, hcomp⟩ := h
  unfold dedupStep
  split
  · next hl =>
    have hfresh : ∀ kv ∈ seen, kv.1 ≠ pageKey r := lookupPage_eq_none hl
    refine ⟨pairwise_setPage _ _ hpw, ?_, ?_, ?_⟩
    · intro kv hkv
      rcases mem_setPage_strong hpw hkv with ⟨hkv', _⟩ | rfl
      · obtain ⟨h1, h2⟩ := hwf kv hkv'
        exact ⟨h1, List.mem_append_left _ h2⟩
      · exact ⟨rfl, List.mem_append_right _ (List.mem_singleton_self r)⟩
    · intro kv hkv s hs hks
      rcases mem_setPage_strong hpw hkv with ⟨hkv', hne⟩ | rfl
      · rcases List.mem_append.mp hs with hs' | hs'
        · exact hmax kv hkv' s hs' hks
        · rw [List.mem_singleton] at hs'
          subst s
          exact absurd hks.symm hne
      · rcases List.mem_append.mp hs with hs' | hs'
        · obtain ⟨kv', hkv', hk'⟩ := hcomp s hs'
          exact absurd (hk'.trans hks) (hfresh kv' hkv')
        · rw [List.mem_singleton] at hs'
          subst s
          exact le_refl _
    · intro s hs
      rcases List.mem_append.mp hs with hs' | hs'
      · obtain ⟨kv, hkv, hk⟩ := hcomp s hs'
        exact ⟨kv, mem_setPage_of_ne _ _ hkv (hfresh kv hkv), hk⟩
      · rw [List.mem_singleton] at hs'
        subst s
        exact ⟨(pageKey r, r), self_mem_setPage _ _ _, rfl⟩
  · next cur hl =>
    have hcur : (pageKey r, cur) ∈ seen := lookupPage_eq_some hl
    split
    · next hlt =>
      refine ⟨pairwise_setPage _ _ hpw, ?_, ?_, ?_⟩
      · intro kv hkv
        rcases mem_setPage_strong hpw hkv with ⟨hkv', _⟩ | rfl
        · obtain ⟨h1, h2⟩ := hwf kv hkv'
          exact ⟨h1, List.mem_append_left _ h2⟩
        · exact ⟨rfl, List.mem_append_right _ (List.mem_singleton_self r)⟩
      · intro kv hkv s hs hks
        rcases mem_setPage_strong hpw hkv with ⟨hkv', hne⟩ | rfl
        · rcases List.mem_append.mp hs with hs' | hs'
          · exact hmax kv hkv' s hs' hks
          · rw [List.mem_singleton] at hs'
            subst s
            exact absurd hks.symm hne
        · rcases List.mem_append.mp hs with hs' | hs'
          · exact le_trans (hmax (pageKey r, cur) hcur s hs' hks) (le_of_lt hlt)
          · rw [List.mem_singleton] at hs'
            subst s
            exact le_refl _
      · intro s hs
        rcases List.mem_append.mp hs with hs' | hs'
        · obtain ⟨kv, hkv, hk⟩ := hcomp s hs'
          by_cases hne : kv.1 = pageKey r
          · refine ⟨(pageKey r, r), self_mem_setPage _ _ _, ?_⟩
            rw [← hne]
            exact hk
          · exact ⟨kv, mem_setPage_of_ne _ _ hkv hne, hk⟩
        · rw [List.mem_singleton] at hs'
          subst s
          exact ⟨(pageKey r, r), self_mem_setPage _ _ _, rfl⟩
    · next hnlt =>
      refine ⟨hpw, ?_, ?_, ?_⟩
      · intro kv hkv
        obtain ⟨h1, h2⟩ := hwf kv hkv
        exact ⟨h1, List.mem_append_left _ h2⟩
      · intro kv hkv s hs hks
        rcases List.mem_append.mp hs with hs' | hs'
        · exact hmax kv hkv s hs' hks
        · rw [List.mem_singleton] at hs'
          subst s
          have hkeq : kv = (pageKey r, cur) :=
            pairwise_key_unique hpw hkv hcur hks.symm
          rw [hkeq]
          exact le_of_not_lt hnlt
      · intro s hs
        rcases List.mem_append.mp hs with hs' | hs'
        · exact hcomp s hs'
        · rw [List.mem_singleton] at hs'
          subst s
          exact ⟨(pageKey r, cur), hcur, rfl⟩

theorem dedupInv_foldl :
    ∀ (rs processed : List SearchResult)
      (seen : List ((List Char × Int) × SearchResult)),
      DedupInv processed seen →
      DedupInv (processed ++ rs) (rs.foldl dedupStep seen) := by
  intro rs
  induction rs with
  | nil => intro processed seen h; simpa using h
  | cons r rs ih =>
    intro processed seen h
    have h2 := ih (processed ++ [r]) (dedupStep seen r) (dedupInv_step h r)
    simpa [List.append_assoc] using h2

theorem dedupInv_final (scored : List SearchResult) :
    DedupInv scored (scored.foldl dedupStep []) := by
  have h0 : DedupInv [] [] :=
    ⟨List.Pairwise.nil, fun kv hkv => absurd hkv (List.not_mem_nil kv),
     fun kv hkv => absurd hkv (List.not_mem_nil kv),
     fun s hs => absurd hs (List.not_mem_nil s)⟩
  simpa using dedupInv_foldl scored [] [] h0

/-! ### Scoring lemmas (C2, C3) -/

theorem scorePgRow_eq_some {q : List Char} {ms : ℚ} {row : PgRow}
    {r : SearchResult} (h : scorePgRow q ms row = some r) :
    ms ≤ r.combined_score ∧
    r.combined_score = r.semantic_score * 0.7 + r.keyword_score * 0.3 := by
  simp only [scorePgRow] at h
  split at h
  · cases h
  · split at h
    · next hth =>
      injection h with h2
      subst h2
      exact ⟨hth, rfl⟩
    · cases h

theorem scoreQdrantHit_eq_some {q : List Char} {ms : ℚ} {hit : QdrantHit}
    {r : SearchResult} (h : scoreQdrantHit q ms hit = some r) :
    ms ≤ r.combined_score ∧
    r.combined_score = r.semantic_score * 0.7 + r.keyword_score * 0.3 := by
  simp only [scoreQdrantHit] at h
  split at h
  · cases h
  · split at h
    · next hth =>
      injection h with h2
      subst h2
      exact ⟨hth, rfl⟩
    · cases h

theorem scoredResults_mem {q : List Char} {pg : List PgRow}
    {qd : Option (List QdrantHit)} {ms : ℚ} {r : SearchResult}
    (hr : r ∈ scoredResults q pg qd ms) :
    ms ≤ r.combined_score ∧
    r.combined_score = r.semantic_score * 0.7 + r.keyword_score * 0.3 := by
  unfold scoredResults at hr
  rcases List.mem_append.mp hr with h | h
  · obtain ⟨row, _, hs⟩ := List.mem_filterMap.mp h
    exact scorePgRow_eq_some hs
  · cases qd with
    | none => cases h
    | some hits =>
      obtain ⟨hit, _, hs⟩ := List.mem_filterMap.mp h
      exact scoreQdrantHit_eq_some hs

/-! ### Properties of hybrid search (C2, C3) -/

theorem hybrid_search_mem {q : List Char} {pg : List PgRow}
    {qd : Option (List QdrantHit)} {limit : Nat} {ms : ℚ} {r : SearchResult}
    (hr : r ∈ hybrid_search q pg qd limit ms) :
    r ∈ scoredResults q pg qd ms ∧
    ∀ s ∈ scoredResults q pg qd ms, pageKey s = pageKey r →
      s.combined_score ≤ r.combined_score := by
  simp only [hybrid_search] at hr
  have hr1 := (List.take_sublist limit _).subset hr
  have hr2 : r ∈ ((scoredResults q pg qd ms).foldl dedupStep []).map (·.2) :=
    (List.mergeSort_perm _ _).mem_iff.mp hr1
  obtain ⟨kv, hkv, hsnd⟩ := List.mem_map.mp hr2
  obtain ⟨hpw, hwf, hmax, _⟩ := dedupInv_final (scoredResults q pg qd ms)
  subst hsnd
  refine ⟨(hwf kv hkv).2, ?_⟩
  intro s hs hks
  apply hmax kv hkv s hs
  rw [(hwf kv hkv).1]
  exact hks

theorem hybrid_search_length (q : List Char) (pg : List PgRow)
    (qd : Option (List QdrantHit)) (limit : Nat) (ms : ℚ) :
    (hybrid_search q pg qd limit ms).length ≤ limit := by
  simp only [hybrid_search]
  exact List.length_take_le _ _

theorem hybrid_search_pairwise_keys (q : List Char) (pg : List PgRow)
    (qd : Option (List QdrantHit)) (limit : Nat) (ms : ℚ) :
    List.Pairwise (fun a b => pageKey a ≠ pageKey b)
      (hybrid_search q pg qd limit ms) := by
  obtain ⟨hpw, hwf, _, _⟩ := dedupInv_final (scoredResults q pg qd ms)
  have h1 : List.Pairwise (fun a b => pageKey a ≠ pageKey b)
      (((scoredResults q pg qd ms).foldl dedupStep []).map (·.2)) := by
    rw [List.pairwise_map]
    refine List.Pairwise.imp_of_mem ?_ hpw
    intro a b ha hb hne
    rw [← (hwf a ha).1, ← (hwf b hb).1]
    exact hne
  have h2 := ((List.mergeSort_perm
    (((scoredResults q pg qd ms).foldl dedupStep []).map (·.2))
    (fun a b => decide (b.combined_score ≤ a.combined_score))).pairwise_iff
    (fun h => Ne.symm h)).mpr h1
  exact List.Pairwise.sublist (List.take_sublist _ _) h2

theorem hybrid_search_min_score (q : List Char) (pg : List PgRow)
    (qd : Option (List QdrantHit)) (limit : Nat) (ms : ℚ) :
    ∀ r ∈ hybrid_search q pg qd limit ms, ms ≤ r.combined_score := by
  intro r hr
  exact (scoredResults_mem (hybrid_search_mem hr).1).1

theorem hybrid_search_sorted (q : List Char) (pg : List PgRow)
    (qd : Option (List QdrantHit)) (limit : Nat) (ms : ℚ) :
    List.Pairwise (fun a b => b.combined_score ≤ a.combined_score)
      (hybrid_search q pg qd limit ms) := by
  have htrans : ∀ a b c : SearchResult,
      decide (b.combined_score ≤ a.combined_score) = true →
      decide (c.combined_score ≤ b.combined_score) = true →
      decide (c.combined_score ≤ a.combined_score) = true := by
    intro a b c h1 h2
    rw [decide_eq_true_iff] at h1 h2 ⊢
    exact le_trans h2 h1
  have htotal : ∀ a b : SearchResult,
      (decide (b.combined_score ≤ a.combined_score) ||
        decide (a.combined_score ≤ b.combined_score)) = true := by
    intro a b
    rcases le_total b.combined_score a.combined_score with h | h <;>
      simp [h]
  have hs := List.sorted_mergeSort htrans htotal
    (((scoredResults q pg qd ms).foldl dedupStep []).map (·.2))
  have hs' : List.Pairwise (fun a b => b.combined_score ≤ a.combined_score)
      ((((scoredResults q pg qd ms).foldl dedupStep []).map (·.2)).mergeSort
        (fun a b => decide (b.combined_score ≤ a.combined_score))) :=
    hs.imp (fun h => of_decide_eq_true h)
  exact List.Pairwise.sublist (List.take_sublist _ _) hs'

unseal List.merge List.mergeSort in
theorem mergeSort_single {α : Type} (le : α → α → Bool) (x : α) :
    [x].mergeSort le = [x] := rfl

theorem hybrid_example :
    hybrid_search exQuery [exRow] (some [exHit]) 5 (35 / 100) = [exResult] := by
  have htoc : is_toc_or_index_page ['t', 'h', 'e'] = false := by decide
  have hns : nonStopWords ['t', 'h', 'e'] = [] := by decide
  norm_num [hybrid_search, scoredResults, List.filterMap_cons, scorePgRow,
    scoreQdrantHit, exQuery, exRow, exHit, exResult, htoc, hns,
    calculate_keyword_score, List.foldl, dedupStep, lookupPage, setPage,
    pageKey, List.find?, mergeSort_single]

/-! ### C2: the hybrid-search result list -/

/-- C2: hybrid search returns at most `limit` results; no two returned
results share a (document name, page number) pair; every returned result is
one of the scored candidates and dominates the combined score of every
scored candidate for the same page (deduplication keeps the higher score);
every returned result meets the minimum-score threshold; the list is sorted
by combined score, descending; and on the concrete example, the two
candidates for page 5 of "manual.pdf" with combined scores 0.6 (pgvector)
and 0.8 (Qdrant) collapse to the single result with combined score 0.8. -/
theorem C2_hybrid_search_contract :
    (∀ (q : List Char) (pg : List PgRow) (qd : Option (List QdrantHit))
        (limit : Nat) (ms : ℚ),
      (hybrid_search q pg qd limit ms).length ≤ limit) ∧
    (∀ (q : List Char) (pg : List PgRow) (qd : Option (List QdrantHit))
        (limit : Nat) (ms : ℚ),
      List.Pairwise (fun a b => pageKey a ≠ pageKey b)
        (hybrid_search q pg qd limit ms)) ∧
    (∀ (q : List Char) (pg : List PgRow) (qd : Option (List QdrantHit))
        (limit : Nat) (ms : ℚ),
      ∀ r ∈ hybrid_search q pg qd limit ms, ms ≤ r.combined_score) ∧
    (∀ (q : List Char) (pg : List PgRow) (qd : Option (List QdrantHit))
        (limit : Nat) (ms : ℚ),
      List.Pairwise (fun a b => b.combined_score ≤ a.combined_score)
        (hybrid_search q pg qd limit ms)) ∧
    (∀ (q : List Char) (pg : List PgRow) (qd : Option (List QdrantHit))
        (limit : Nat) (ms : ℚ),
      ∀ r ∈ hybrid_search q pg qd limit ms,
        r ∈ scoredResults q pg qd ms ∧
        ∀ s ∈ scoredResults q pg qd ms, pageKey s = pageKey r →
          s.combined_score ≤ r.combined_score) ∧
    hybrid_search exQuery [exRow] (some [exHit]) 5 (35 / 100) = [exResult] :=
  ⟨hybrid_search_length, hybrid_search_pairwise_keys, hybrid_search_min_score,
   hybrid_search_sorted, fun _ _ _ _ _ _ hr => hybrid_search_mem hr,
   hybrid_example⟩

/-- C2 (witness): the threshold statement applied to the member of the
concrete example result list. -/
theorem C2_hybrid_search_witness :
    (35 : ℚ) / 100 ≤ exResult.combined_score :=
  C2_hybrid_search_contract.2.2.1 exQuery [exRow] (some [exHit]) 5 (35 / 100)
    exResult
    (by rw [C2_hybrid_search_contract.2.2.2.2.2]
        exact List.mem_singleton_self exResult)

/-! ### C3: keyword and combined scores -/

theorem calculate_keyword_score_empty (q c : List Char)
    (h : nonStopWords q = []) : calculate_keyword_score q c = 0 := by
  simp only [calculate_keyword_score]
  rw [if_pos (by rw [h]; rfl)]

theorem calculate_keyword_score_formula (q c : List Char)
    (h : nonStopWords q ≠ []) :
    calculate_keyword_score q c =
      (((nonStopWords q).filter
        (fun w => (nonStopWords c).contains w)).length : ℚ) /
        ((nonStopWords q).length : ℚ) := by
  simp only [calculate_keyword_score]
  rw [if_neg (by simpa [List.isEmpty_iff] using h)]

theorem calculate_keyword_score_bounds (q c : List Char) :
    0 ≤ calculate_keyword_score q c ∧ calculate_keyword_score q c ≤ 1 := by
  simp only [calculate_keyword_score]
  split
  · norm_num
  · next hne =>
    have hnil : nonStopWords q ≠ [] := by
      simpa [List.isEmpty_iff] using hne
    have hlen : 0 < (nonStopWords q).length := List.length_pos.mpr hnil
    have hlen' : (0 : ℚ) < ((nonStopWords q).length : ℚ) := by
      exact_mod_cast hlen
    constructor
    · apply div_nonneg _ (le_of_lt hlen')
      exact_mod_cast Nat.zero_le _
    · rw [div_le_one hlen']
      exact_mod_cast List.length_filter_le _ _

theorem scorePgRow_example :
    scorePgRow "oil filter".toList (35 / 100) exRow2 = some exResult2 := by
  have htoc :
      is_toc_or_index_page ['o', 'i', 'l', ' ', 'p', 'u', 'm', 'p'] = false :=
    by decide
  have hq : nonStopWords ['o', 'i', 'l', ' ', 'f', 'i', 'l', 't', 'e', 'r'] =
      [['o', 'i', 'l'], ['f', 'i', 'l', 't', 'e', 'r']] := by decide
  have hc : nonStopWords ['o', 'i', 'l', ' ', 'p', 'u', 'm', 'p'] =
      [['o', 'i', 'l'], ['p', 'u', 'm', 'p']] := by decide
  have hf : (([['o', 'i', 'l'], ['f', 'i', 'l', 't', 'e', 'r']] :
      List (List Char)).filter
      (fun w => (([['o', 'i', 'l'], ['p', 'u', 'm', 'p']] :
        List (List Char)).contains w))) = [['o', 'i', 'l']] := by decide
  have hlast : (List.filter
      (fun w => decide (w = ['o', 'i', 'l']) || decide (w = ['p', 'u', 'm', 'p']))
      [['f', 'i', 'l', 't', 'e', 'r']]) = ([] : List (List Char)) := by decide
  norm_num [scorePgRow, exRow2, exResult2, calculate_keyword_score, htoc, hq,
    hc, hf, hlast]

/-- C3: the keyword score is the stop-word-free word-set overlap
`|query ∩ content| / |query|` (0 for an empty query set) and always lies in
[0, 1]; every result produced by hybrid search has combined score exactly
`semantic · 0.7 + keyword · 0.3`; and a candidate with semantic score 0.8 and
keyword score 0.5 is scored exactly 0.71. -/
theorem C3_keyword_and_combined_scores :
    (∀ q c : List Char,
      0 ≤ calculate_keyword_score q c ∧ calculate_keyword_score q c ≤ 1) ∧
    (∀ q c : List Char, nonStopWords q = [] →
      calculate_keyword_score q c = 0) ∧
    (∀ q c : List Char, nonStopWords q ≠ [] →
      calculate_keyword_score q c =
        (((nonStopWords q).filter
          (fun w => (nonStopWords c).contains w)).length : ℚ) /
          ((nonStopWords q).length : ℚ)) ∧
    (∀ (q : List Char) (pg : List PgRow) (qd : Option (List QdrantHit))
        (limit : Nat) (ms : ℚ),
      ∀ r ∈ hybrid_search q pg qd limit ms,
        r.combined_score = r.semantic_score * 0.7 + r.keyword_score * 0.3) ∧
    scorePgRow "oil filter".toList (35 / 100) exRow2 = some exResult2 ∧
    exResult2.semantic_score = 8 / 10 ∧ exResult2.keyword_score = 1 / 2 ∧
    exResult2.combined_score = 71 / 100 :=
  ⟨calculate_keyword_score_bounds, calculate_keyword_score_empty,
   calculate_keyword_score_formula,
   fun _ _ _ _ _ _ hr => (scoredResults_mem (hybrid_search_mem hr).1).2,
   scorePgRow_example, rfl, rfl, rfl⟩

/-- C3 (witness): the empty-query clause applied to a stop-word-only
query. -/
theorem C3_keyword_score_witness :
    calculate_keyword_score "the".toList "engine oil capacity".toList = 0 :=
  C3_keyword_and_combined_scores.2.1 "the".toList
    "engine oil capacity".toList (by decide)

end DriveIQ
